import Mathlib

/-!
Verification development for the `untz` song renderer (`src/main.rs`).

Shallow embedding conventions:
* `f64` song data (frequency, volume, start, duration) and all size arithmetic
  are modelled by exact arithmetic: `ℚ` for song data and `ℝ` for oscillator
  amplitudes.  IEEE rounding of `f64` is not modelled; the embedding is the
  exact-arithmetic semantics of the same expressions.
* Rust `as` casts from floats to machine integers saturate (Rust ≥ 1.45):
  negative values clamp to 0, values above the maximum clamp to the maximum.
  These casts are modelled explicitly (`castU32`, `castUsizeQ`, `castI16`).
* `u32`/`u16` arithmetic is modelled as `ℕ` with an explicit `% 2^32`/`% 2^16`
  where the code multiplies or adds machine integers (release-mode wrapping;
  debug builds would panic at the same points, and every theorem below that
  asserts a successful render stays in the range where no wrap occurs).
* Fallible operations return `Option`: `none` models a Rust `panic!` or a
  fatal slice-bounds violation.
-/

namespace Untz

/-! ### Machine-integer casts -/

/-- Rust `as u32` applied to an integral value: saturating cast. -/
def castU32 (z : ℤ) : ℕ := min z.toNat (2 ^ 32 - 1)

/-- Truncation toward zero of a rational, as in a Rust float-to-integer cast. -/
def rustTruncQ (q : ℚ) : ℤ := if 0 ≤ q then ⌊q⌋ else ⌈q⌉

/-- Rust `as usize` applied to an `f64` value (64-bit target): truncate toward
zero, saturating at `0` and `2^64 - 1`. -/
def castUsizeQ (q : ℚ) : ℕ := min (rustTruncQ q).toNat (2 ^ 64 - 1)

/-- Rust `as i16` applied to an integral value: saturating cast. -/
def castI16 (z : ℤ) : ℤ := max (-32768) (min 32767 z)

/-! ### Generic helpers from `main.rs` (lines 39-60) -/

/-- `fn overwrite<T>(_curr: T, new: T) -> T { new }` (main.rs:39-41). -/
def overwrite {α : Type} (_curr new : α) : α := new

/-- `fn add<T: Add>(curr: T, new: T) -> T { curr + new }` (main.rs:43-45). -/
def add {α : Type} [Add α] (curr new : α) : α := curr + new

/-- `fn merge<T: Copy>(dst: &mut [T], src: &[T], merge_fn: fn(T, T) -> T)`
(main.rs:53-60).  A length mismatch is `panic!("Mismatched length!")`,
modelled as `none`; otherwise `dst[i] = merge_fn(dst[i], src[i])` for every
index, modelled as the in-place result. -/
def merge {α : Type} (dst src : List α) (mergeFn : α → α → α) : Option (List α) :=
  if dst.length = src.length then some (List.zipWith mergeFn dst src) else none

/-- Writing `src` into the subslice `buf[idx..idx+src.len()]` with `merge`:
the slicing itself (`&mut buf[idx..idx+src.len()]`) is a fatal bounds
violation (`none`) when the range exceeds the buffer, exactly as in
main.rs:113 and main.rs:152; otherwise the merged subslice is written back. -/
def writeInto {α : Type} (buf : List α) (idx : ℕ) (src : List α)
    (mergeFn : α → α → α) : Option (List α) :=
  if idx + src.length ≤ buf.length then
    (merge ((buf.drop idx).take src.length) src mergeFn).map
      (fun m => buf.take idx ++ m ++ buf.drop (idx + src.length))
  else none

/-- The `write_slice` closure of main.rs:112-115 iterated over a list of
slices: each slice is overwritten into the byte buffer at the running cursor
`i`, which then advances by the slice length.  A cursor overrun is the fatal
slice-bounds violation of `merge`'s argument slicing. -/
def writeSlices (buf : List ℕ) (idx : ℕ) : List (List ℕ) → Option (List ℕ)
  | [] => some buf
  | sl :: rest =>
    match writeInto buf idx sl overwrite with
    | none => none
    | some buf2 => writeSlices buf2 (idx + sl.length) rest

/-! ### Data model (main.rs:6-37) -/

/-- `enum Instrument { Sine, Square, Saw }` (main.rs:6-10). -/
inductive Instrument : Type
  | Sine : Instrument
  | Square : Instrument
  | Saw : Instrument

/-- `struct Note` (main.rs:12-17); `f64` fields modelled as `ℚ`. -/
structure Note : Type where
  freq : ℚ
  volume : ℚ
  start : ℚ
  duration : ℚ

/-- `struct Track` (main.rs:19-22). -/
structure Track : Type where
  notes : List Note
  instrument : Instrument

/-- `struct Song` (main.rs:24-26). -/
structure Song : Type where
  tracks : List Track

/-- `enum Format { Wave }` (main.rs:28-30). -/
inductive Format : Type
  | Wave : Format

/-- `struct WriteInfo` (main.rs:32-37); `sample_rate: u32` modelled as `ℕ`
(well-formed values are `< 2^32`). -/
structure WriteInfo : Type where
  filepath : String
  sampleRate : ℕ
  stereo : Bool
  format : Format

/-- `let num_channels = if info.stereo {2_u16} else {1_u16};` (main.rs:99). -/
def numChannels (info : WriteInfo) : ℕ := if info.stereo then 2 else 1

/-! ### Oscillator (main.rs:139-149) -/

/-- `f64::trunc` as a real-valued function (truncation toward zero). -/
noncomputable def rustTruncR (x : ℝ) : ℝ := if 0 ≤ x then (⌊x⌋ : ℝ) else (⌈x⌉ : ℝ)

/-- `f64::fract(x) = x - x.trunc()`. -/
noncomputable def rustFract (x : ℝ) : ℝ := x - rustTruncR x

/-- The per-sample waveform evaluation of main.rs:139-149:
* Sine: `f64::sin(t * 2.0 * PI * freq)`;
* Square: `if f64::floor(t * 2.0 * freq) as u32 % 2 == 0 {1.0} else {-1.0}`
  (note the saturating `as u32`);
* Saw: `2.0 * f64::fract(t * freq) - 1.0`. -/
noncomputable def Instrument.eval : Instrument → ℝ → ℝ → ℝ
  | .Sine, t, freq => Real.sin (t * 2 * Real.pi * freq)
  | .Square, t, freq => if castU32 ⌊t * 2 * freq⌋ % 2 = 0 then 1 else -1
  | .Saw, t, freq => 2 * rustFract (t * freq) - 1

/-! ### Mixer (main.rs:88-96, 133-154) -/

/-- The `total_length` loop of main.rs:88-96: running maximum of
`note.start + note.duration` over all notes of all tracks, starting at `0`. -/
def Song.totalLength (s : Song) : ℚ :=
  s.tracks.foldl
    (fun tl track =>
      track.notes.foldl
        (fun tl note =>
          if note.start + note.duration > tl then note.start + note.duration else tl)
        tl)
    0

/-- `let num_samples = (total_length * info.sample_rate as f64).ceil() as u32;`
(main.rs:98). -/
def Song.numSamples (s : Song) (sampleRate : ℕ) : ℕ :=
  castU32 ⌈s.totalLength * (sampleRate : ℚ)⌉

/-- The local sample array of one note (main.rs:136-150): length
`(note.duration * sample_rate) as usize`, entry `i` equal to
`note.volume * eval(instrument, i / sample_rate, note.freq)`. -/
noncomputable def noteSamples (inst : Instrument) (note : Note) (sampleRate : ℕ) :
    List ℝ :=
  (List.range (castUsizeQ (note.duration * (sampleRate : ℚ)))).map
    (fun (i : ℕ) =>
      (note.volume : ℝ) * inst.eval ((i : ℝ) / (sampleRate : ℝ)) (note.freq : ℝ))

/-- The mixing loop of main.rs:133-154: a zero buffer of `num_samples` floats,
into which each note's local array is merged with `add` at index
`(note.start * sample_rate) as usize`.  `none` models the fatal slice-bounds
panic when a placement exceeds the buffer. -/
noncomputable def Song.sampleData (s : Song) (sampleRate : ℕ) : Option (List ℝ) :=
  s.tracks.foldl
    (fun acc track =>
      track.notes.foldl
        (fun acc note =>
          acc.bind (fun buf =>
            writeInto buf (castUsizeQ (note.start * (sampleRate : ℚ)))
              (noteSamples track.instrument note sampleRate) add))
        acc)
    (some (List.replicate (s.numSamples sampleRate) (0 : ℝ)))

/-! ### Quantizer (main.rs:156-163) -/

/-- `f64::clamp(self, min, max)` in exact arithmetic. -/
noncomputable def rustClamp (x lo hi : ℝ) : ℝ := min hi (max lo x)

/-- `let val = (sample_max * sample.clamp(-1.0, 1.0)).floor() as i16;`
(main.rs:158) with `sample_max = 32767`. -/
noncomputable def quantize (x : ℝ) : ℤ :=
  castI16 ⌊(32767 : ℝ) * rustClamp x (-1) 1⌋

/-! ### Container writer (main.rs:97-130, 156-165) -/

/-- Little-endian byte list of a `u16` value. -/
def u16le (x : ℕ) : List ℕ := [x % 256, x / 256 % 256]

/-- Little-endian byte list of a `u32` value. -/
def u32le (x : ℕ) : List ℕ :=
  [x % 256, x / 256 % 256, x / 65536 % 256, x / 16777216 % 256]

/-- `i16::to_le_bytes` of a value in `[-32768, 32767]`: two's-complement
low/high bytes. -/
def i16le (v : ℤ) : List ℕ := u16le (v % 65536).toNat

/-- The per-sample channel loop of main.rs:160-162: `num_channels` copies of
the quantized sample's two little-endian bytes, appended in order. -/
noncomputable def frameBytes (channels : ℕ) (x : ℝ) : List ℕ :=
  (List.range channels).foldl (fun acc _ => acc ++ i16le (quantize x)) []

/-- `data_size = num_samples * num_channels as u32 * sample_bytes as u32`
(main.rs:101), a `u32` product. -/
def Song.dataSize (s : Song) (info : WriteInfo) : ℕ :=
  s.numSamples info.sampleRate * numChannels info * 2 % 2 ^ 32

/-- `pad_size = if data_size % 2 == 0 {0} else {1}` (main.rs:102). -/
def Song.padSize (s : Song) (info : WriteInfo) : ℕ :=
  if s.dataSize info % 2 = 0 then 0 else 1

/-- `wave_chunk_size = 36 + data_size + pad_size` (main.rs:103), `u32` sum. -/
def Song.waveChunkSize (s : Song) (info : WriteInfo) : ℕ :=
  (36 + s.dataSize info + s.padSize info) % 2 ^ 32

/-- `file_size = (wave_chunk_size + 8) as usize` (main.rs:104): the sum
`wave_chunk_size + 8` is a `u32` addition, so it wraps at `2^32` (release
mode; a debug build panics on the overflow at the same inputs, and every
theorem below that asserts a successful render stays in the range where the
sum does not wrap), and only then is the exact value widened to `usize`. -/
def Song.fileSize (s : Song) (info : WriteInfo) : ℕ :=
  (s.waveChunkSize info + 8) % 2 ^ 32

/-- `byte_rate = sample_rate * sample_bytes * num_channels` (main.rs:105). -/
def byteRate (info : WriteInfo) : ℕ :=
  info.sampleRate * 2 * numChannels info % 2 ^ 32

/-- `block_align = sample_bytes * num_channels` (main.rs:106), a `u16`. -/
def blockAlign (info : WriteInfo) : ℕ := 2 * numChannels info % 2 ^ 16

/-- The thirteen header `write_slice` calls of main.rs:117-130, in order:
`"RIFF"`, chunk size, `"WAVE"`, `"fmt "`, `16u32`, format tag `\x01\x00`,
channels, sample rate, byte rate, block align, bits per sample (`8 * 2`),
`"data"`, data size. -/
def headerSlices (s : Song) (info : WriteInfo) : List (List ℕ) :=
  [[82, 73, 70, 70],
   u32le (s.waveChunkSize info),
   [87, 65, 86, 69],
   [102, 109, 116, 32],
   u32le 16,
   [1, 0],
   u16le (numChannels info),
   u32le info.sampleRate,
   u32le (byteRate info),
   u16le (blockAlign info),
   u16le 16,
   [100, 97, 116, 97],
   u32le (s.dataSize info)]

/-- The 44 header bytes. -/
def Song.headerBytes (s : Song) (info : WriteInfo) : List ℕ :=
  (headerSlices s info).flatten

/-- The in-memory file assembly of main.rs:109-163: a zeroed buffer of
`file_size` bytes, the header slices and then one two-byte slice per channel
per quantized sample written through `write_slice`.  `none` models a panic in
either the mixing loop or a `write_slice` bounds violation.  (In the source
the header is written before the mixing loop runs, but a mixing panic still
means no bytes ever reach the file, so the outcome is the same.) -/
noncomputable def Song.renderFile (s : Song) (info : WriteInfo) : Option (List ℕ) :=
  match s.sampleData info.sampleRate with
  | none => none
  | some sd =>
    writeSlices (List.replicate (s.fileSize info) 0) 0
      (headerSlices s info ++ sd.map (fun x => frameBytes (numChannels info) x))

/-! ### `Song::write` with its I/O surface (main.rs:86-168) -/

/-- Abstract I/O errors the operating system may return. -/
inductive IOError : Type
  | notFound : IOError
  | permissionDenied : IOError
  | diskFull : IOError
deriving DecidableEq

/-- Outcome of one call to `Song::write`: a propagated `io::Error`, a panic,
or `Ok(())` after handing `file_data` to `file.write`. -/
inductive WriteOutcome : Type
  | panicked : WriteOutcome
  | err : IOError → WriteOutcome
  | ok : List ℕ → WriteOutcome
deriving DecidableEq

/-- `Song::write` (main.rs:86-168) with the two I/O calls made explicit as
environment-chosen outcomes:
* `File::create(&info.filepath)?` (main.rs:87) propagates a creation error;
* `file.write(&file_data);` (main.rs:165) has NO `?` and its `io::Result` is
  bound to nothing — the function ignores `writeResult` entirely and returns
  `Ok(())`, which the model states by producing `ok` in both branches. -/
noncomputable def Song.write (s : Song) (info : WriteInfo)
    (createResult writeResult : Option IOError) : WriteOutcome :=
  match createResult with
  | some e => .err e
  | none =>
    match s.renderFile info with
    | none => .panicked
    | some fileData =>
      match writeResult with
      | some _e => .ok fileData
      | none => .ok fileData

/-! ### Reading header fields back (for the round-trip claims) -/

/-- Read a little-endian `u16` at a byte offset. -/
def readU16LE (bytes : List ℕ) (off : ℕ) : ℕ :=
  bytes.getD off 0 + 256 * bytes.getD (off + 1) 0

/-- Read a little-endian `u32` at a byte offset. -/
def readU32LE (bytes : List ℕ) (off : ℕ) : ℕ :=
  bytes.getD off 0 + 256 * bytes.getD (off + 1) 0 +
    65536 * bytes.getD (off + 2) 0 + 16777216 * bytes.getD (off + 3) 0

/-! ### Lemmas about `merge` and `writeInto` -/

theorem merge_eq_none {α : Type} {dst src : List α} (f : α → α → α)
    (h : dst.length ≠ src.length) : merge dst src f = none := by
  simp [merge, h]

theorem merge_eq_some {α : Type} {dst src : List α} (f : α → α → α)
    (h : dst.length = src.length) :
    merge dst src f = some (List.zipWith f dst src) := by
  simp [merge, h]

theorem zipWith_overwrite {α : Type} :
    ∀ {dst src : List α}, dst.length = src.length →
      List.zipWith (fun c n => overwrite c n) dst src = src
  | [], [], _ => rfl
  | [], _ :: _, h => by simp at h
  | _ :: _, [], h => by simp at h
  | d :: ds, s :: ss, h => by
    have h2 : ds.length = ss.length := by
      simpa using h
    rw [List.zipWith_cons_cons, zipWith_overwrite h2]
    rfl

theorem merge_overwrite {α : Type} {dst src : List α}
    (h : dst.length = src.length) : merge dst src overwrite = some src := by
  rw [merge_eq_some _ h]
  exact congrArg some (zipWith_overwrite h)

theorem writeInto_eq_none {α : Type} {buf src : List α} {idx : ℕ}
    (f : α → α → α) (h : buf.length < idx + src.length) :
    writeInto buf idx src f = none := by
  simp [writeInto, Nat.not_le.mpr h]

theorem writeInto_eq_some {α : Type} {buf src : List α} {idx : ℕ}
    (f : α → α → α) (h : idx + src.length ≤ buf.length) :
    writeInto buf idx src f =
      some (buf.take idx ++
        List.zipWith f ((buf.drop idx).take src.length) src ++
        buf.drop (idx + src.length)) := by
  have hlen : ((buf.drop idx).take src.length).length = src.length := by
    simp only [List.length_take, List.length_drop]
    omega
  simp [writeInto, h, merge_eq_some _ hlen]

theorem writeInto_length {α : Type} {buf src out : List α} {idx : ℕ}
    {f : α → α → α} (h : writeInto buf idx src f = some out) :
    out.length = buf.length := by
  by_cases hb : idx + src.length ≤ buf.length
  · rw [writeInto_eq_some f hb] at h
    cases h
    simp only [List.length_append, List.length_take, List.length_drop,
      List.length_zipWith]
    omega
  · rw [writeInto_eq_none f (Nat.not_le.mp hb)] at h
    cases h

theorem writeInto_isSome {α : Type} {buf src : List α} {idx : ℕ}
    (f : α → α → α) (h : idx + src.length ≤ buf.length) :
    ∃ out, writeInto buf idx src f = some out :=
  ⟨_, writeInto_eq_some f h⟩

/-! ### The cursor writer on a zero-initialized buffer -/

theorem writeSlices_spec :
    ∀ (slices : List (List ℕ)) (W : List ℕ) (k : ℕ),
      writeSlices (W ++ List.replicate k 0) W.length slices =
        if (slices.map List.length).sum ≤ k then
          some (W ++ slices.flatten ++
            List.replicate (k - (slices.map List.length).sum) 0)
        else none
  | [], W, k => by simp [writeSlices]
  | sl :: rest, W, k => by
    rw [writeSlices]
    by_cases hk : sl.length ≤ k
    · have hb : W.length + sl.length ≤ (W ++ List.replicate k 0).length := by
        simp only [List.length_append, List.length_replicate]
        omega
      rw [writeInto_eq_some _ hb]
      have hdrop : (W ++ List.replicate k 0).drop W.length = List.replicate k 0 :=
        List.drop_left W _
      have htake : (W ++ List.replicate k 0).take W.length = W :=
        List.take_left W _
      have hslice : ((W ++ List.replicate k 0).drop W.length).take sl.length =
          List.replicate sl.length 0 := by
        rw [hdrop, List.take_replicate]
        congr 1
        omega
      have hzip : List.zipWith (fun c n => overwrite c n)
          (((W ++ List.replicate k 0).drop W.length).take sl.length) sl = sl := by
        apply zipWith_overwrite
        rw [hslice, List.length_replicate]
      have hdrop2 : (W ++ List.replicate k 0).drop (W.length + sl.length) =
          List.replicate (k - sl.length) 0 := by
        rw [← List.drop_drop, hdrop, List.drop_replicate]
      rw [htake, hdrop2]
      have : W ++ List.zipWith (fun c n => overwrite c n)
            (((W ++ List.replicate k 0).drop W.length).take sl.length) sl ++
            List.replicate (k - sl.length) 0 =
          (W ++ sl) ++ List.replicate (k - sl.length) 0 := by
        rw [hzip, List.append_assoc]
      rw [this]
      have hW : W.length + sl.length = (W ++ sl).length := by
        simp [List.length_append]
      rw [hW]
      dsimp only
      rw [writeSlices_spec rest (W ++ sl) (k - sl.length)]
      by_cases hrest : (rest.map List.length).sum ≤ k - sl.length
      · rw [if_pos hrest, if_pos (by simp only [List.map_cons, List.sum_cons]; omega)]
        have harith : k - sl.length - (rest.map List.length).sum =
            k - (sl.length + (rest.map List.length).sum) := by
          omega
        simp only [List.flatten_cons, List.map_cons, List.sum_cons, harith,
          List.append_assoc]
      · rw [if_neg hrest, if_neg (by simp only [List.map_cons, List.sum_cons]; omega)]
    · have hb : (W ++ List.replicate k 0).length < W.length + sl.length := by
        simp only [List.length_append, List.length_replicate]
        omega
      rw [writeInto_eq_none _ hb]
      rw [if_neg (by simp only [List.map_cons, List.sum_cons]; omega)]

/-! ### Fold invariants -/

theorem foldl_pres {β γ : Type} (P : β → Prop) (f : β → γ → β) :
    ∀ (l : List γ), (∀ a x, P a → P (f a x)) → ∀ acc, P acc → P (l.foldl f acc)
  | [], _, _, hacc => hacc
  | x :: rest, hf, acc, hacc =>
    foldl_pres P f rest hf (f acc x) (hf acc x hacc)

/-- A successful mix buffer has exactly `num_samples` entries: every note
placement writes in place and preserves the buffer length. -/
theorem sampleData_length {s : Song} {R : ℕ} {sd : List ℝ}
    (h : s.sampleData R = some sd) : sd.length = s.numSamples R := by
  have key := foldl_pres
    (fun (o : Option (List ℝ)) => ∀ b, o = some b → b.length = s.numSamples R)
    (fun acc track =>
      track.notes.foldl
        (fun acc note =>
          acc.bind (fun buf =>
            writeInto buf (castUsizeQ (note.start * (R : ℚ)))
              (noteSamples track.instrument note R) add))
        acc)
    s.tracks
    (by
      intro a track ha
      refine foldl_pres
        (fun (o : Option (List ℝ)) => ∀ b, o = some b → b.length = s.numSamples R)
        _ track.notes ?_ a ha
      intro a2 note ha2 b hb
      match a2, hb with
      | some buf, hb =>
        have hbuf := ha2 buf rfl
        simp only [Option.bind] at hb
        exact (writeInto_length hb).trans hbuf)
    (some (List.replicate (s.numSamples R) (0 : ℝ)))
    (by
      intro b hb
      cases hb
      exact List.length_replicate _ _)
  exact key sd h

/-- `total_length` starts at `0` and the loop only ever raises it. -/
theorem totalLength_nonneg (s : Song) : 0 ≤ s.totalLength := by
  refine foldl_pres (fun q : ℚ => 0 ≤ q) _ s.tracks ?_ 0 le_rfl
  intro a track ha
  refine foldl_pres (fun q : ℚ => 0 ≤ q) _ track.notes ?_ a ha
  intro a2 note ha2
  dsimp only
  split
  · exact le_of_lt (lt_of_le_of_lt ha2 (by assumption))
  · exact ha2

theorem totalLength_fold_no_notes :
    ∀ (tracks : List Track), (∀ tr ∈ tracks, tr.notes = []) → ∀ (tl : ℚ),
      tracks.foldl
        (fun tl track =>
          track.notes.foldl
            (fun tl note =>
              if note.start + note.duration > tl then note.start + note.duration
              else tl)
            tl)
        tl = tl
  | [], _, _ => rfl
  | tr :: rest, h, tl => by
    rw [List.foldl_cons, h tr (by simp), List.foldl_nil]
    exact totalLength_fold_no_notes rest (fun tr2 htr2 => h tr2 (by simp [htr2])) tl

/-- With no notes anywhere, the `total_length` loop never updates. -/
theorem totalLength_of_no_notes {s : Song} (h : ∀ tr ∈ s.tracks, tr.notes = []) :
    s.totalLength = 0 :=
  totalLength_fold_no_notes s.tracks h 0

/-- With no notes anywhere, `numSamples` is `0`. -/
theorem numSamples_of_no_notes {s : Song} (R : ℕ)
    (h : ∀ tr ∈ s.tracks, tr.notes = []) : s.numSamples R = 0 := by
  unfold Song.numSamples
  rw [totalLength_of_no_notes h]
  norm_num [castU32]

theorem sampleData_fold_no_notes (R : ℕ) :
    ∀ (tracks : List Track), (∀ tr ∈ tracks, tr.notes = []) →
      ∀ (acc : Option (List ℝ)),
      tracks.foldl
        (fun acc track =>
          track.notes.foldl
            (fun acc note =>
              acc.bind (fun buf =>
                writeInto buf (castUsizeQ (note.start * (R : ℚ)))
                  (noteSamples track.instrument note R) add))
            acc)
        acc = acc
  | [], _, _ => rfl
  | tr :: rest, h, acc => by
    rw [List.foldl_cons, h tr (by simp), List.foldl_nil]
    exact sampleData_fold_no_notes R rest (fun tr2 htr2 => h tr2 (by simp [htr2])) acc

/-- With no notes anywhere, the mixing loop leaves the zero buffer alone. -/
theorem sampleData_of_no_notes {s : Song} (R : ℕ)
    (h : ∀ tr ∈ s.tracks, tr.notes = []) : s.sampleData R = some [] := by
  unfold Song.sampleData
  rw [sampleData_fold_no_notes R s.tracks h, numSamples_of_no_notes R h]
  rfl

/-! ### Frame bytes -/

theorem i16le_length (v : ℤ) : (i16le v).length = 2 := rfl

theorem foldl_append_const {α : Type} (l : List α) :
    ∀ (c : ℕ) (acc : List α),
      (List.range c).foldl (fun a _ => a ++ l) acc =
        acc ++ (List.replicate c l).flatten
  | 0, acc => by simp
  | c + 1, acc => by
    rw [List.range_succ, List.foldl_append, foldl_append_const l c acc,
      List.replicate_succ' c l]
    simp [List.flatten_append, List.append_assoc]

/-- The channel loop emits `channels` copies of the two quantized bytes. -/
theorem frameBytes_eq (channels : ℕ) (x : ℝ) :
    frameBytes channels x =
      (List.replicate channels (i16le (quantize x))).flatten := by
  unfold frameBytes
  rw [foldl_append_const _ channels []]
  rfl

theorem frameBytes_length (channels : ℕ) (x : ℝ) :
    (frameBytes channels x).length = channels * 2 := by
  rw [frameBytes_eq, List.length_flatten, List.map_replicate, i16le_length,
    List.sum_replicate, smul_eq_mul]

/-! ### Header layout -/

theorem headerBytes_explicit (s : Song) (info : WriteInfo) :
    s.headerBytes info =
      [82, 73, 70, 70,
       s.waveChunkSize info % 256, s.waveChunkSize info / 256 % 256,
       s.waveChunkSize info / 65536 % 256, s.waveChunkSize info / 16777216 % 256,
       87, 65, 86, 69, 102, 109, 116, 32, 16, 0, 0, 0, 1, 0,
       numChannels info % 256, numChannels info / 256 % 256,
       info.sampleRate % 256, info.sampleRate / 256 % 256,
       info.sampleRate / 65536 % 256, info.sampleRate / 16777216 % 256,
       byteRate info % 256, byteRate info / 256 % 256,
       byteRate info / 65536 % 256, byteRate info / 16777216 % 256,
       blockAlign info % 256, blockAlign info / 256 % 256, 16, 0,
       100, 97, 116, 97,
       s.dataSize info % 256, s.dataSize info / 256 % 256,
       s.dataSize info / 65536 % 256, s.dataSize info / 16777216 % 256] := rfl

theorem headerBytes_length (s : Song) (info : WriteInfo) :
    (s.headerBytes info).length = 44 := by
  rw [headerBytes_explicit]
  rfl

theorem headerSlices_sum (s : Song) (info : WriteInfo) :
    ((headerSlices s info).map List.length).sum = 44 := rfl

theorem numChannels_le_two (info : WriteInfo) : numChannels info ≤ 2 := by
  unfold numChannels
  split <;> norm_num

theorem headerBytes_read_channels (s : Song) (info : WriteInfo) :
    readU16LE (s.headerBytes info) 22 = numChannels info := by
  rw [headerBytes_explicit]
  show numChannels info % 256 + 256 * (numChannels info / 256 % 256) =
    numChannels info
  have := numChannels_le_two info
  omega

theorem headerBytes_read_rate (s : Song) (info : WriteInfo) :
    readU32LE (s.headerBytes info) 24 = info.sampleRate % 2 ^ 32 := by
  rw [headerBytes_explicit]
  show info.sampleRate % 256 + 256 * (info.sampleRate / 256 % 256) +
      65536 * (info.sampleRate / 65536 % 256) +
      16777216 * (info.sampleRate / 16777216 % 256) = info.sampleRate % 2 ^ 32
  omega

theorem headerBytes_read_bits (s : Song) (info : WriteInfo) :
    readU16LE (s.headerBytes info) 34 = 16 := by
  rw [headerBytes_explicit]
  rfl

theorem headerBytes_read_chunkSize (s : Song) (info : WriteInfo) :
    readU32LE (s.headerBytes info) 4 = s.waveChunkSize info := by
  rw [headerBytes_explicit]
  show s.waveChunkSize info % 256 + 256 * (s.waveChunkSize info / 256 % 256) +
      65536 * (s.waveChunkSize info / 65536 % 256) +
      16777216 * (s.waveChunkSize info / 16777216 % 256) = s.waveChunkSize info
  have : s.waveChunkSize info < 2 ^ 32 :=
    Nat.mod_lt _ (by norm_num)
  omega

theorem headerBytes_read_dataSize (s : Song) (info : WriteInfo) :
    readU32LE (s.headerBytes info) 40 = s.dataSize info := by
  rw [headerBytes_explicit]
  show s.dataSize info % 256 + 256 * (s.dataSize info / 256 % 256) +
      65536 * (s.dataSize info / 65536 % 256) +
      16777216 * (s.dataSize info / 16777216 % 256) = s.dataSize info
  have : s.dataSize info < 2 ^ 32 := Nat.mod_lt _ (by norm_num)
  omega

theorem readU16LE_append (l l2 : List ℕ) (off : ℕ) (h : off + 1 < l.length) :
    readU16LE (l ++ l2) off = readU16LE l off := by
  unfold readU16LE
  rw [List.getD_append l l2 0 off (by omega), List.getD_append l l2 0 (off + 1) h]

theorem readU32LE_append (l l2 : List ℕ) (off : ℕ) (h : off + 3 < l.length) :
    readU32LE (l ++ l2) off = readU32LE l off := by
  unfold readU32LE
  rw [List.getD_append l l2 0 off (by omega),
    List.getD_append l l2 0 (off + 1) (by omega),
    List.getD_append l l2 0 (off + 2) (by omega),
    List.getD_append l l2 0 (off + 3) h]

/-! ### The assembled file -/

theorem numSamples_le (s : Song) (R : ℕ) : s.numSamples R ≤ 2 ^ 32 - 1 :=
  min_le_right _ _

/-- Once the mixing loop has succeeded, the render succeeds exactly when the
`u32` size arithmetic does not saturate or wrap anywhere — `data_size`,
`wave_chunk_size` and `wave_chunk_size + 8` all stay below `2^32`, which is
the single condition `44 + num_samples·channels·2 < 2^32` — and then the
file is the header followed by the sample frames with nothing after them. -/
theorem renderFile_eq {s : Song} {info : WriteInfo} {sd : List ℝ}
    (hsd : s.sampleData info.sampleRate = some sd) :
    s.renderFile info =
      if 44 + s.numSamples info.sampleRate * numChannels info * 2 < 2 ^ 32 then
        some (s.headerBytes info ++
          (sd.map (fun x => frameBytes (numChannels info) x)).flatten)
      else none := by
  have hn : sd.length = s.numSamples info.sampleRate := sampleData_length hsd
  obtain ⟨m, hm⟩ : ∃ m, s.numSamples info.sampleRate * numChannels info = m :=
    ⟨_, rfl⟩
  have hsum : ((headerSlices s info ++
      sd.map (fun x => frameBytes (numChannels info) x)).map List.length).sum =
      44 + m * 2 := by
    rw [List.map_append, List.sum_append, headerSlices_sum, List.map_map]
    have hcomp : (List.length ∘ fun x => frameBytes (numChannels info) x) =
        fun (_ : ℝ) => numChannels info * 2 :=
      funext (fun x => frameBytes_length (numChannels info) x)
    rw [hcomp, List.map_const', List.sum_replicate, smul_eq_mul, hn, ← hm]
    ring
  have hds : s.dataSize info = m * 2 % 2 ^ 32 := by
    unfold Song.dataSize
    rw [hm]
  have hpad : s.padSize info = 0 := by
    unfold Song.padSize
    rw [if_pos]
    rw [hds]
    omega
  have hfs : s.fileSize info = ((36 + m * 2 % 2 ^ 32 + 0) % 2 ^ 32 + 8) % 2 ^ 32 := by
    unfold Song.fileSize Song.waveChunkSize
    rw [hds, hpad]
  unfold Song.renderFile
  rw [hsd]
  dsimp only
  have hws := writeSlices_spec
    (headerSlices s info ++ sd.map (fun x => frameBytes (numChannels info) x))
    [] (s.fileSize info)
  simp only [List.nil_append, List.length_nil] at hws
  rw [hws, hsum]
  by_cases hfit : 44 + s.numSamples info.sampleRate * numChannels info * 2 < 2 ^ 32
  · rw [if_pos hfit]
    rw [hm] at hfit
    have hk : 44 + m * 2 ≤ s.fileSize info := by
      rw [hfs]
      omega
    rw [if_pos hk]
    have hzero : s.fileSize info - (44 + m * 2) = 0 := by
      rw [hfs]
      omega
    rw [hzero]
    simp only [List.replicate_zero, List.append_nil, List.flatten_append]
    rfl
  · rw [if_neg hfit]
    rw [hm] at hfit
    rw [if_neg]
    rw [hfs]
    omega

/-! ### Element-wise view of `zipWith` -/

theorem zipWith_getD {α : Type} (f : α → α → α) :
    ∀ (l1 l2 : List α) (i : ℕ) (d : α), i < (List.zipWith f l1 l2).length →
      (List.zipWith f l1 l2).getD i d = f (l1.getD i d) (l2.getD i d)
  | [], _, _, _, h => by simp at h
  | _ :: _, [], _, _, h => by simp at h
  | _ :: _, _ :: _, 0, _, _ => rfl
  | _ :: as, _ :: bs, i + 1, d, h => by
    simp only [List.zipWith_cons_cons, List.getD_cons_succ]
    exact zipWith_getD f as bs i d (by simpa using h)

/-! ### Claim theorems -/

/-- C3: `merge` (main.rs:53-60) panics (returns the fatal outcome) exactly on
a length mismatch and never silently truncates; on equal lengths it combines
element-wise with the supplied combine function and raises no error. -/
theorem C3_merge_spec {α : Type} (dst src : List α) (f : α → α → α) :
    (dst.length ≠ src.length → merge dst src f = none) ∧
    (dst.length = src.length →
      merge dst src f = some (List.zipWith f dst src) ∧
      ∀ out, merge dst src f = some out →
        out.length = dst.length ∧
        ∀ (i : ℕ) (d : α), i < out.length →
          out.getD i d = f (dst.getD i d) (src.getD i d)) := by
  constructor
  · intro hne
    exact merge_eq_none f hne
  · intro heq
    refine ⟨merge_eq_some f heq, ?_⟩
    intro out hout
    rw [merge_eq_some f heq] at hout
    cases hout
    constructor
    · rw [List.length_zipWith, heq, min_self]
    · intro i d hi
      exact zipWith_getD f dst src i d hi

/-- Witness for C3 at concrete inputs: a mismatched pair panics, an equal
pair is combined element-wise by addition. -/
theorem C3_merge_spec_witness :
    merge [1, 2] [5] (fun a b : ℕ => a + b) = none ∧
    merge [1, 2] [5, 6] (fun a b : ℕ => a + b) = some [6, 8] := by
  constructor
  · exact (C3_merge_spec [1, 2] [5] _).1 (by decide)
  · rw [((C3_merge_spec [1, 2] [5, 6] _).2 (by decide)).1]
    rfl

/-- C7: at `t = 0` the oscillator of main.rs:139-149 yields exactly `0` for
Sine, `+1` for Square and `-1` for Saw, for any positive frequency. -/
theorem C7_osc_at_zero (freq : ℝ) (_hf : 0 < freq) :
    Instrument.eval .Sine 0 freq = 0 ∧ Instrument.eval .Square 0 freq = 1 ∧
      Instrument.eval .Saw 0 freq = -1 := by
  refine ⟨?_, ?_, ?_⟩
  · show Real.sin (0 * 2 * Real.pi * freq) = 0
    rw [zero_mul, zero_mul, zero_mul, Real.sin_zero]
  · show (if castU32 ⌊(0 : ℝ) * 2 * freq⌋ % 2 = 0 then (1 : ℝ) else -1) = 1
    rw [zero_mul, zero_mul, Int.floor_zero, if_pos (by decide)]
  · show 2 * rustFract (0 * freq) - 1 = -1
    have h0 : rustFract 0 = 0 := by
      unfold rustFract rustTruncR
      rw [if_pos le_rfl, Int.floor_zero]
      simp
    rw [zero_mul, h0]
    ring

/-- Witness for C7 at `freq = 1`. -/
theorem C7_osc_at_zero_witness :
    (0 : ℝ) < 1 ∧
      (Instrument.eval .Sine 0 1 = 0 ∧ Instrument.eval .Square 0 1 = 1 ∧
        Instrument.eval .Saw 0 1 = -1) :=
  ⟨by norm_num, C7_osc_at_zero 1 (by norm_num)⟩

/-- C8: for every instrument, `t ≥ 0` and `freq > 0`, the oscillator output
lies in `[-1, 1]`, so each note's per-sample contribution
`volume * eval(...)` is bounded by `|volume|`. -/
theorem C8_osc_bounded (inst : Instrument) (t freq : ℝ) (ht : 0 ≤ t)
    (hf : 0 < freq) :
    (-1 ≤ inst.eval t freq ∧ inst.eval t freq ≤ 1) ∧
      ∀ v : ℝ, |v * inst.eval t freq| ≤ |v| := by
  have hb : -1 ≤ inst.eval t freq ∧ inst.eval t freq ≤ 1 := by
    cases inst with
    | Sine => exact ⟨Real.neg_one_le_sin _, Real.sin_le_one _⟩
    | Square =>
      show -1 ≤ (if castU32 ⌊t * 2 * freq⌋ % 2 = 0 then (1 : ℝ) else -1) ∧
        (if castU32 ⌊t * 2 * freq⌋ % 2 = 0 then (1 : ℝ) else -1) ≤ 1
      split <;> norm_num
    | Saw =>
      show -1 ≤ 2 * rustFract (t * freq) - 1 ∧ 2 * rustFract (t * freq) - 1 ≤ 1
      have hx : 0 ≤ t * freq := mul_nonneg ht (le_of_lt hf)
      have h1 : rustFract (t * freq) = t * freq - (⌊t * freq⌋ : ℝ) := by
        unfold rustFract rustTruncR
        rw [if_pos hx]
      have h2 : (⌊t * freq⌋ : ℝ) ≤ t * freq := Int.floor_le _
      have h3 : t * freq < (⌊t * freq⌋ : ℝ) + 1 := Int.lt_floor_add_one _
      refine ⟨?_, ?_⟩ <;> rw [h1] <;> linarith
  refine ⟨hb, ?_⟩
  intro v
  rw [abs_mul]
  have habs : |inst.eval t freq| ≤ 1 := abs_le.mpr hb
  calc |v| * |inst.eval t freq| ≤ |v| * 1 :=
        mul_le_mul_of_nonneg_left habs (abs_nonneg v)
    _ = |v| := mul_one _

/-- Witness for C8 at the Sine instrument, `t = 0`, `freq = 1`. -/
theorem C8_osc_bounded_witness :
    (0 : ℝ) ≤ 0 ∧ (0 : ℝ) < 1 ∧
      ((-1 ≤ Instrument.eval .Sine 0 1 ∧ Instrument.eval .Sine 0 1 ≤ 1) ∧
        ∀ v : ℝ, |v * Instrument.eval .Sine 0 1| ≤ |v|) :=
  ⟨le_rfl, by norm_num, C8_osc_bounded .Sine 0 1 le_rfl (by norm_num)⟩

/-! ### Quantizer lemmas -/

theorem rustClamp_mem (x : ℝ) : -1 ≤ rustClamp x (-1) 1 ∧ rustClamp x (-1) 1 ≤ 1 := by
  unfold rustClamp
  constructor
  · exact le_min (by norm_num) (le_max_left _ _)
  · exact min_le_left _ _

/-- The `as i16` cast after the clamped floor never saturates. -/
theorem quantize_no_sat (x : ℝ) :
    quantize x = ⌊(32767 : ℝ) * rustClamp x (-1) 1⌋ := by
  obtain ⟨hlo, hhi⟩ := rustClamp_mem x
  have hylo : (-32767 : ℝ) ≤ 32767 * rustClamp x (-1) 1 := by nlinarith
  have hyhi : (32767 : ℝ) * rustClamp x (-1) 1 ≤ 32767 := by nlinarith
  have hflo : (-32767 : ℤ) ≤ ⌊(32767 : ℝ) * rustClamp x (-1) 1⌋ := by
    rw [Int.le_floor]
    push_cast
    exact hylo
  have hfhi : ⌊(32767 : ℝ) * rustClamp x (-1) 1⌋ ≤ 32767 := by
    have h1 := Int.floor_le_floor hyhi
    rw [show ((32767 : ℝ)) = ((32767 : ℤ) : ℝ) by norm_num, Int.floor_intCast] at h1
    exact h1
  unfold quantize castI16
  rw [min_eq_right hfhi, max_eq_right (by omega)]

theorem quantize_half_lsb : quantize ((1 : ℝ) / 2 / 32767) = 0 := by
  rw [quantize_no_sat]
  have hc : rustClamp ((1 : ℝ) / 2 / 32767) (-1) 1 = (1 : ℝ) / 2 / 32767 := by
    unfold rustClamp
    rw [max_eq_right (by norm_num), min_eq_right (by norm_num)]
  rw [hc, show (32767 : ℝ) * ((1 : ℝ) / 2 / 32767) = 1 / 2 by norm_num]
  rw [Int.floor_eq_iff]
  norm_num

theorem flatten_replicate_slot {l : List ℕ} (hl : l.length = 2) :
    ∀ (c i : ℕ), i < c →
      (((List.replicate c l).flatten).drop (2 * i)).take 2 = l
  | c + 1, 0, _ => by
    rw [List.replicate_succ, List.flatten_cons, Nat.mul_zero, List.drop_zero,
      ← hl, List.take_left]
  | c + 1, i + 1, h => by
    rw [List.replicate_succ, List.flatten_cons]
    have hdrop : (l ++ (List.replicate c l).flatten).drop (2 * (i + 1)) =
        ((List.replicate c l).flatten).drop (2 * i) := by
      rw [show 2 * (i + 1) = l.length + 2 * i by omega, ← List.drop_drop,
        List.drop_left]
    rw [hdrop]
    exact flatten_replicate_slot hl c i (by omega)

/-- C4: quantization clamps to `[-1, 1]`, multiplies by `32767` and floors
(so exactly `0.5/32767` quantizes to `0`, not `1`), and every channel slot of
a sample frame carries the identical quantized value. -/
theorem C4_quantizer_spec :
    quantize ((1 : ℝ) / 2 / 32767) = 0 ∧
    (∀ (channels : ℕ) (x : ℝ) (i : ℕ), i < channels →
      ((frameBytes channels x).drop (2 * i)).take 2 = i16le (quantize x)) ∧
    (∀ x : ℝ, quantize x = ⌊(32767 : ℝ) * rustClamp x (-1) 1⌋) := by
  refine ⟨quantize_half_lsb, ?_, quantize_no_sat⟩
  intro channels x i hi
  rw [frameBytes_eq]
  exact flatten_replicate_slot (i16le_length _) channels i hi

/-! ### Cast evaluation helpers -/

theorem rustTruncQ_natCast (n : ℕ) : rustTruncQ ((n : ℚ)) = n := by
  unfold rustTruncQ
  rw [if_pos (Nat.cast_nonneg n), Int.floor_natCast]

theorem castUsizeQ_natCast (n : ℕ) : castUsizeQ ((n : ℚ)) = min n (2 ^ 64 - 1) := by
  unfold castUsizeQ
  rw [rustTruncQ_natCast, Int.toNat_natCast]

theorem castUsizeQ_nonneg {q : ℚ} (h : 0 ≤ q) :
    castUsizeQ q = min ⌊q⌋.toNat (2 ^ 64 - 1) := by
  unfold castUsizeQ rustTruncQ
  rw [if_pos h]

theorem noteSamples_length (inst : Instrument) (note : Note) (R : ℕ) :
    (noteSamples inst note R).length = castUsizeQ (note.duration * (R : ℚ)) := by
  simp [noteSamples]

/-- `total_length` of a one-note song, directly from the loop. -/
theorem totalLength_single (inst : Instrument) (note : Note) :
    (Song.mk [Track.mk [note] inst]).totalLength =
      if note.start + note.duration > 0 then note.start + note.duration else 0 :=
  rfl

/-- The mixing loop of a one-note song is a single placement into the zero
buffer. -/
theorem sampleData_single (inst : Instrument) (note : Note) (R : ℕ) :
    (Song.mk [Track.mk [note] inst]).sampleData R =
      writeInto
        (List.replicate ((Song.mk [Track.mk [note] inst]).numSamples R) (0 : ℝ))
        (castUsizeQ (note.start * (R : ℚ))) (noteSamples inst note R) add :=
  rfl

theorem frames_flatten_length (sd : List ℝ) (c : ℕ) :
    ((sd.map (fun x => frameBytes c x)).flatten).length = sd.length * (c * 2) := by
  rw [List.length_flatten, List.map_map]
  have hcomp : (List.length ∘ fun x => frameBytes c x) = fun (_ : ℝ) => c * 2 :=
    funext (fun x => frameBytes_length c x)
  rw [hcomp, List.map_const', List.sum_replicate, smul_eq_mul]

/-- A mixing panic aborts the render before anything reaches the file. -/
theorem renderFile_of_sampleData_none {s : Song} {info : WriteInfo}
    (h : s.sampleData info.sampleRate = none) : s.renderFile info = none := by
  unfold Song.renderFile
  rw [h]

/-- What a successful render must look like. -/
theorem renderFile_some_shape {s : Song} {info : WriteInfo} {bytes : List ℕ}
    (h : s.renderFile info = some bytes) :
    ∃ sd, s.sampleData info.sampleRate = some sd ∧
      bytes = s.headerBytes info ++
        (sd.map (fun x => frameBytes (numChannels info) x)).flatten ∧
      44 + s.numSamples info.sampleRate * numChannels info * 2 < 2 ^ 32 := by
  cases hcase : s.sampleData info.sampleRate with
  | none =>
    unfold Song.renderFile at h
    rw [hcase] at h
    simp at h
  | some sd =>
    have heq := renderFile_eq hcase
    rw [heq] at h
    by_cases hfit : 44 + s.numSamples info.sampleRate * numChannels info * 2 < 2 ^ 32
    · rw [if_pos hfit] at h
      injection h with h2
      exact ⟨sd, rfl, h2.symm, hfit⟩
    · rw [if_neg hfit] at h
      cases h

/-- A song with no notes renders to exactly the 44 header bytes. -/
theorem renderFile_no_notes (s : Song) (info : WriteInfo)
    (h : ∀ tr ∈ s.tracks, tr.notes = []) :
    s.renderFile info = some (s.headerBytes info) := by
  have hrf := renderFile_eq (sampleData_of_no_notes info.sampleRate h)
  rw [numSamples_of_no_notes info.sampleRate h] at hrf
  simp only [List.map_nil, List.flatten_nil, List.append_nil, Nat.zero_mul,
    zero_mul] at hrf
  rw [hrf, if_pos (by norm_num)]

/-- C6: a song with no tracks or no notes has derived total duration `0` and
renders to a container whose data-size field is `0` and whose total length is
exactly the 44 header bytes. -/
theorem C6_empty_song (s : Song) (info : WriteInfo)
    (h : ∀ tr ∈ s.tracks, tr.notes = []) :
    s.totalLength = 0 ∧ s.dataSize info = 0 ∧
      ∃ bytes, s.renderFile info = some bytes ∧ bytes.length = 44 ∧
        readU32LE bytes 40 = 0 := by
  have htl := totalLength_of_no_notes h
  have hds : s.dataSize info = 0 := by
    unfold Song.dataSize
    rw [numSamples_of_no_notes info.sampleRate h]
    simp
  refine ⟨htl, hds, s.headerBytes info, renderFile_no_notes s info h,
    headerBytes_length s info, ?_⟩
  rw [headerBytes_read_dataSize, hds]

/-- Witness for C6 at the literally empty song and the `main()` write
configuration. -/
theorem C6_empty_song_witness :
    (Song.mk []).totalLength = 0 ∧
      (Song.mk []).dataSize (WriteInfo.mk "test.wav" 44100 false .Wave) = 0 ∧
      ∃ bytes,
        (Song.mk []).renderFile (WriteInfo.mk "test.wav" 44100 false .Wave) =
          some bytes ∧
        bytes.length = 44 ∧ readU32LE bytes 40 = 0 :=
  C6_empty_song (Song.mk []) (WriteInfo.mk "test.wav" 44100 false .Wave)
    (by simp)

/-- C9: for every song and write configuration with a `u32` sample rate,
reading the produced header back (channels at offset 22, sample rate at
offset 24, bits per sample at offset 34, little-endian) recovers exactly the
configured channel count, sample rate and the bit depth 16. -/
theorem C9_header_roundtrip (s : Song) (info : WriteInfo) (bytes : List ℕ)
    (hrate : info.sampleRate < 2 ^ 32)
    (h : s.renderFile info = some bytes) :
    readU16LE bytes 22 = numChannels info ∧
      readU32LE bytes 24 = info.sampleRate ∧ readU16LE bytes 34 = 16 := by
  obtain ⟨sd, hsd, hbytes, hfit⟩ := renderFile_some_shape h
  subst hbytes
  refine ⟨?_, ?_, ?_⟩
  · rw [readU16LE_append _ _ 22 (by rw [headerBytes_length]; norm_num),
      headerBytes_read_channels]
  · rw [readU32LE_append _ _ 24 (by rw [headerBytes_length]; norm_num),
      headerBytes_read_rate, Nat.mod_eq_of_lt hrate]
  · rw [readU16LE_append _ _ 34 (by rw [headerBytes_length]; norm_num),
      headerBytes_read_bits]

/-- Witness for C9: the empty song rendered stereo at 44100 Hz. -/
theorem C9_header_roundtrip_witness :
    (44100 : ℕ) < 2 ^ 32 ∧
      readU16LE ((Song.mk []).headerBytes (WriteInfo.mk "test.wav" 44100 true .Wave)) 22 = 2 ∧
      readU32LE ((Song.mk []).headerBytes (WriteInfo.mk "test.wav" 44100 true .Wave)) 24 = 44100 ∧
      readU16LE ((Song.mk []).headerBytes (WriteInfo.mk "test.wav" 44100 true .Wave)) 34 = 16 :=
  ⟨by norm_num,
    C9_header_roundtrip (Song.mk []) (WriteInfo.mk "test.wav" 44100 true .Wave)
      _ (by norm_num)
      (renderFile_no_notes (Song.mk []) (WriteInfo.mk "test.wav" 44100 true .Wave)
        (by simp))⟩

/-- C10: the data chunk size `num_samples·channels·2` is always even, so the
pad term is always `0`; whenever a file is emitted, its RIFF chunk-size field
is exactly `36 + data_size` and its total length is exactly `data_size + 44`
bytes — no pad byte is ever appended. -/
theorem C10_no_pad (s : Song) (info : WriteInfo) :
    2 ∣ s.dataSize info ∧ s.padSize info = 0 ∧
      ∀ bytes, s.renderFile info = some bytes →
        readU32LE bytes 4 = 36 + s.dataSize info ∧
        bytes.length = s.dataSize info + 44 := by
  obtain ⟨m, hm⟩ : ∃ m, s.numSamples info.sampleRate * numChannels info = m :=
    ⟨_, rfl⟩
  have hds : s.dataSize info = m * 2 % 2 ^ 32 := by
    unfold Song.dataSize
    rw [hm]
  have heven : 2 ∣ s.dataSize info := by
    rw [hds]
    omega
  have hpad : s.padSize info = 0 := by
    unfold Song.padSize
    rw [if_pos]
    rw [hds]
    omega
  refine ⟨heven, hpad, ?_⟩
  intro bytes h
  obtain ⟨sd, hsd, hbytes, hfit⟩ := renderFile_some_shape h
  rw [hm] at hfit
  have hds2 : s.dataSize info = m * 2 := by
    rw [hds]
    omega
  have hwcs : s.waveChunkSize info = 36 + s.dataSize info := by
    unfold Song.waveChunkSize
    rw [hpad, hds2]
    omega
  constructor
  · rw [hbytes, readU32LE_append _ _ 4 (by rw [headerBytes_length]; norm_num),
      headerBytes_read_chunkSize, hwcs]
  · rw [hbytes, List.length_append, headerBytes_length, frames_flatten_length,
      sampleData_length hsd]
    have hassoc : s.numSamples info.sampleRate * (numChannels info * 2) = m * 2 := by
      rw [← hm]
      ring
    rw [hassoc, hds2]
    omega

/-- Witness for C10 at the empty song, mono, 8000 Hz: the produced 44-byte
file has chunk-size field `36` and data size `0`. -/
theorem C10_no_pad_witness :
    2 ∣ (Song.mk []).dataSize (WriteInfo.mk "test.wav" 8000 false .Wave) ∧
      (Song.mk []).padSize (WriteInfo.mk "test.wav" 8000 false .Wave) = 0 ∧
      (readU32LE ((Song.mk []).headerBytes (WriteInfo.mk "test.wav" 8000 false .Wave)) 4 =
        36 + (Song.mk []).dataSize (WriteInfo.mk "test.wav" 8000 false .Wave) ∧
      ((Song.mk []).headerBytes (WriteInfo.mk "test.wav" 8000 false .Wave)).length =
        (Song.mk []).dataSize (WriteInfo.mk "test.wav" 8000 false .Wave) + 44) :=
  ⟨(C10_no_pad (Song.mk []) (WriteInfo.mk "test.wav" 8000 false .Wave)).1,
    (C10_no_pad (Song.mk []) (WriteInfo.mk "test.wav" 8000 false .Wave)).2.1,
    (C10_no_pad (Song.mk []) (WriteInfo.mk "test.wav" 8000 false .Wave)).2.2 _
      (renderFile_no_notes (Song.mk []) (WriteInfo.mk "test.wav" 8000 false .Wave)
        (by simp))⟩

theorem totalLength_single_nonneg (inst : Instrument) (f v D : ℚ) (hD : 0 ≤ D) :
    (Song.mk [Track.mk [Note.mk f v 0 D] inst]).totalLength = D := by
  rw [totalLength_single]
  dsimp only
  rw [zero_add]
  by_cases h0 : D > 0
  · rw [if_pos h0]
  · rw [if_neg h0]
    have hz : D = 0 := le_antisymm (not_lt.mp h0) hD
    rw [hz]

/-- C5 (amended): for a single note of duration `D ≥ 0` starting at `0`,
rendered mono at rate `R > 0`, as long as the `u32` size arithmetic neither
saturates nor overflows anywhere — `num_samples`, `data_size`,
`wave_chunk_size` and `file_size = wave_chunk_size + 8` all stay below
`2^32`, i.e. `44 + 2·⌈D·R⌉ < 2^32` — the sample count is exactly `⌈D·R⌉`
and the emitted file is exactly `44 + 2·⌈D·R⌉` bytes — including
non-integer `D·R`. -/
theorem C5_single_note_sizes (inst : Instrument) (f v D : ℚ) (R : ℕ)
    (fp : String) (hD : 0 ≤ D) (_hR : 0 < R)
    (hfit : 44 + 2 * (⌈D * (R : ℚ)⌉).toNat < 2 ^ 32) :
    (Song.mk [Track.mk [Note.mk f v 0 D] inst]).numSamples R =
      (⌈D * (R : ℚ)⌉).toNat ∧
      ∃ bytes,
        (Song.mk [Track.mk [Note.mk f v 0 D] inst]).renderFile
          (WriteInfo.mk fp R false .Wave) = some bytes ∧
        bytes.length = 44 + 2 * (⌈D * (R : ℚ)⌉).toNat := by
  have hDR : (0 : ℚ) ≤ D * (R : ℚ) := mul_nonneg hD (Nat.cast_nonneg R)
  have htl := totalLength_single_nonneg inst f v D hD
  have hn : (Song.mk [Track.mk [Note.mk f v 0 D] inst]).numSamples R =
      (⌈D * (R : ℚ)⌉).toNat := by
    unfold Song.numSamples castU32
    rw [htl]
    exact min_eq_left (by omega)
  have hflle : ⌊D * (R : ℚ)⌋.toNat ≤ (⌈D * (R : ℚ)⌉).toNat :=
    Int.toNat_le_toNat (Int.floor_le_ceil _)
  have hsrc : (noteSamples inst (Note.mk f v 0 D) R).length =
      ⌊D * (R : ℚ)⌋.toNat := by
    rw [noteSamples_length]
    dsimp only
    rw [castUsizeQ_nonneg hDR]
    exact min_eq_left (by omega)
  have hidx : castUsizeQ ((Note.mk f v 0 D).start * (R : ℚ)) = 0 := by
    show castUsizeQ ((0 : ℚ) * (R : ℚ)) = 0
    rw [zero_mul, castUsizeQ_nonneg le_rfl, Int.floor_zero]
    simp
  have hbound : castUsizeQ ((Note.mk f v 0 D).start * (R : ℚ)) +
      (noteSamples inst (Note.mk f v 0 D) R).length ≤
      (List.replicate
        ((Song.mk [Track.mk [Note.mk f v 0 D] inst]).numSamples R)
        (0 : ℝ)).length := by
    rw [hidx, hsrc, List.length_replicate, hn]
    omega
  obtain ⟨out, hout⟩ := writeInto_isSome add hbound
  have hsd : (Song.mk [Track.mk [Note.mk f v 0 D] inst]).sampleData R =
      some out := by
    rw [sampleData_single]
    exact hout
  refine ⟨hn, ?_⟩
  have hrf := @renderFile_eq (Song.mk [Track.mk [Note.mk f v 0 D] inst])
    (WriteInfo.mk fp R false .Wave) out hsd
  have hch : numChannels (WriteInfo.mk fp R false .Wave) = 1 := rfl
  have hcond : 44 +
      (Song.mk [Track.mk [Note.mk f v 0 D] inst]).numSamples
        (WriteInfo.mk fp R false Format.Wave).sampleRate *
        numChannels (WriteInfo.mk fp R false Format.Wave) * 2 < 2 ^ 32 := by
    show 44 + (Song.mk [Track.mk [Note.mk f v 0 D] inst]).numSamples R *
      numChannels (WriteInfo.mk fp R false Format.Wave) * 2 < 2 ^ 32
    rw [hch, hn]
    omega
  rw [hrf, if_pos hcond]
  refine ⟨_, rfl, ?_⟩
  rw [List.length_append, headerBytes_length, frames_flatten_length]
  have hout_len : out.length =
      (Song.mk [Track.mk [Note.mk f v 0 D] inst]).numSamples R :=
    sampleData_length hsd
  rw [hout_len, hch, hn]
  omega

/-- Witness for C5 at `D = 3/2`, `R = 3` (non-integer `D·R = 9/2`): five
samples, 54 bytes. -/
theorem C5_single_note_sizes_witness :
    (0 : ℚ) ≤ 3 / 2 ∧ (0 : ℕ) < 3 ∧
      (Song.mk [Track.mk [Note.mk 440 1 0 (3 / 2)] .Sine]).numSamples 3 = 5 ∧
      ∃ bytes,
        (Song.mk [Track.mk [Note.mk 440 1 0 (3 / 2)] .Sine]).renderFile
          (WriteInfo.mk "test.wav" 3 false .Wave) = some bytes ∧
        bytes.length = 54 := by
  have hceil : (⌈(3 / 2 : ℚ) * ((3 : ℕ) : ℚ)⌉).toNat = 5 := by
    rw [show (3 / 2 : ℚ) * ((3 : ℕ) : ℚ) = 9 / 2 by norm_num]
    rw [show (⌈(9 / 2 : ℚ)⌉ : ℤ) = 5 by rw [Int.ceil_eq_iff]; norm_num]
    rfl
  have main := C5_single_note_sizes .Sine 440 1 (3 / 2) 3 "test.wav"
    (by norm_num) (by norm_num) (by rw [hceil]; norm_num)
  refine ⟨by norm_num, by norm_num, ?_, ?_⟩
  · rw [main.1, hceil]
  · obtain ⟨bytes, hb, hl⟩ := main.2
    exact ⟨bytes, hb, by rw [hl, hceil]⟩

/-- A single note whose `duration·R` exceeds `u32::MAX` makes the placement
slice larger than the saturated mix buffer: the mixing loop hits the fatal
slice-bounds panic. -/
theorem sampleData_single_oversized (inst : Instrument) (f v D : ℚ) (dn : ℕ)
    (hcast : D = ((dn : ℕ) : ℚ)) (hbig : 4294967295 < dn) (hsmall : dn < 2 ^ 64) :
    (Song.mk [Track.mk [Note.mk f v 0 D] inst]).sampleData 1 = none := by
  have hD : (0 : ℚ) ≤ D := by
    rw [hcast]
    exact Nat.cast_nonneg dn
  have htl := totalLength_single_nonneg inst f v D hD
  have hone : ((1 : ℕ) : ℚ) = 1 := by norm_num
  have hn : (Song.mk [Track.mk [Note.mk f v 0 D] inst]).numSamples 1 =
      4294967295 := by
    unfold Song.numSamples castU32
    rw [htl, hone, mul_one, hcast, Int.ceil_natCast, Int.toNat_natCast]
    have h32 : (2 : ℕ) ^ 32 - 1 = 4294967295 := by norm_num
    rw [h32]
    omega
  have hsrc : (noteSamples inst (Note.mk f v 0 D) 1).length = dn := by
    rw [noteSamples_length]
    dsimp only
    rw [hone, mul_one, hcast, castUsizeQ_natCast]
    have h64 : (2 : ℕ) ^ 64 - 1 = 18446744073709551615 := by norm_num
    rw [h64]
    omega
  rw [sampleData_single]
  apply writeInto_eq_none
  rw [hsrc, List.length_replicate, hn]
  have hidx : castUsizeQ ((Note.mk f v 0 D).start * ((1 : ℕ) : ℚ)) = 0 := by
    show castUsizeQ ((0 : ℚ) * ((1 : ℕ) : ℚ)) = 0
    rw [zero_mul, castUsizeQ_nonneg le_rfl, Int.floor_zero]
    simp
  rw [hidx]
  omega

/-- C5 counterexample: for the single note of duration `D = 2^32` seconds at
rate `R = 1`, the claimed sample count `⌈D·R⌉ = 2^32` does not fit the `u32`
cast, which saturates to `2^32 - 1`; the render then dies in the mixing loop
and emits nothing, rather than a `44 + 2·⌈D·R⌉`-byte file. -/
theorem C5_counterexample :
    (Song.mk [Track.mk [Note.mk 440 1 0 4294967296] .Sine]).numSamples 1 =
      4294967295 ∧
      (⌈(Song.mk [Track.mk [Note.mk 440 1 0 4294967296] .Sine]).totalLength *
        ((1 : ℕ) : ℚ)⌉).toNat = 4294967296 ∧
      (4294967295 : ℕ) ≠ 4294967296 ∧
      (Song.mk [Track.mk [Note.mk 440 1 0 4294967296] .Sine]).renderFile
        (WriteInfo.mk "test.wav" 1 false .Wave) = none := by
  have hcast : (4294967296 : ℚ) = ((4294967296 : ℕ) : ℚ) := by norm_num
  have htl := totalLength_single_nonneg .Sine 440 1 (4294967296 : ℚ)
    (by norm_num)
  have hone : ((1 : ℕ) : ℚ) = 1 := by norm_num
  have hnone := sampleData_single_oversized .Sine 440 1 (4294967296 : ℚ)
    4294967296 hcast (by norm_num) (by norm_num)
  refine ⟨?_, ?_, by norm_num, ?_⟩
  · unfold Song.numSamples castU32
    rw [htl, hone, mul_one, hcast, Int.ceil_natCast, Int.toNat_natCast]
    have h32 : (2 : ℕ) ^ 32 - 1 = 4294967295 := by norm_num
    rw [h32]
    omega
  · rw [htl, hone, mul_one, hcast, Int.ceil_natCast, Int.toNat_natCast]
  · exact renderFile_of_sampleData_none hnone

/-- C2 (amended): the code contains no clamp or buffer extension — the note
is merged through a direct slice of the mix buffer.  In exact arithmetic,
whenever the buffer size does not saturate the `u32` cast
(`⌈total·R⌉ < 2^32`), the placement indices satisfy
`⌊start·R⌋ + ⌊duration·R⌋ ≤ ⌈total·R⌉` for every note with
`start ≥ 0`, `duration ≥ 0`, `start + duration ≤ total` — even when
`start + duration` lands exactly on the buffer boundary — so the slice stays
in bounds and the placement succeeds. -/
theorem C2_placement_in_bounds (start dur total : ℚ) (R : ℕ)
    (hs : 0 ≤ start) (hd : 0 ≤ dur) (hsd : start + dur ≤ total)
    (hno_sat : (⌈total * (R : ℚ)⌉).toNat < 2 ^ 32) :
    castUsizeQ (start * (R : ℚ)) + castUsizeQ (dur * (R : ℚ)) ≤
      castU32 ⌈total * (R : ℚ)⌉ ∧
      ∀ (buf src : List ℝ),
        buf.length = castU32 ⌈total * (R : ℚ)⌉ →
        src.length = castUsizeQ (dur * (R : ℚ)) →
        ∃ out, writeInto buf (castUsizeQ (start * (R : ℚ))) src add = some out := by
  have hR : (0 : ℚ) ≤ (R : ℚ) := Nat.cast_nonneg R
  have hsR : (0 : ℚ) ≤ start * (R : ℚ) := mul_nonneg hs hR
  have hdR : (0 : ℚ) ≤ dur * (R : ℚ) := mul_nonneg hd hR
  have key : ⌊start * (R : ℚ)⌋ + ⌊dur * (R : ℚ)⌋ ≤ ⌈total * (R : ℚ)⌉ := by
    have hmul := mul_le_mul_of_nonneg_right hsd hR
    rw [add_mul] at hmul
    have h1 : (↑(⌊start * (R : ℚ)⌋ + ⌊dur * (R : ℚ)⌋) : ℚ) ≤ total * (R : ℚ) := by
      push_cast
      have hf1 := Int.floor_le (start * (R : ℚ))
      have hf2 := Int.floor_le (dur * (R : ℚ))
      linarith
    exact le_trans (Int.le_floor.mpr h1) (Int.floor_le_ceil _)
  have hfs : 0 ≤ ⌊start * (R : ℚ)⌋ := Int.floor_nonneg.mpr hsR
  have hfd : 0 ≤ ⌊dur * (R : ℚ)⌋ := Int.floor_nonneg.mpr hdR
  have htn : ⌊start * (R : ℚ)⌋.toNat + ⌊dur * (R : ℚ)⌋.toNat ≤
      (⌈total * (R : ℚ)⌉).toNat := by
    omega
  have hcast1 : castUsizeQ (start * (R : ℚ)) = ⌊start * (R : ℚ)⌋.toNat := by
    rw [castUsizeQ_nonneg hsR]
    exact min_eq_left (by omega)
  have hcast2 : castUsizeQ (dur * (R : ℚ)) = ⌊dur * (R : ℚ)⌋.toNat := by
    rw [castUsizeQ_nonneg hdR]
    exact min_eq_left (by omega)
  have hcap : castU32 ⌈total * (R : ℚ)⌉ = (⌈total * (R : ℚ)⌉).toNat :=
    min_eq_left (by omega)
  constructor
  · rw [hcast1, hcast2, hcap]
    exact htn
  · intro buf src hbuf hsrc
    apply writeInto_isSome
    rw [hbuf, hsrc, hcast1, hcast2, hcap]
    exact htn

/-- Witness for C2 at `start = 1/2`, `duration = 1/2`, `total = 1`, `R = 3`:
`start + duration` lands exactly on the buffer boundary and the placement
`1 + 1 ≤ 3` stays in bounds. -/
theorem C2_placement_in_bounds_witness :
    (0 : ℚ) ≤ 1 / 2 ∧ (1 / 2 : ℚ) + 1 / 2 ≤ 1 ∧
      (⌈(1 : ℚ) * ((3 : ℕ) : ℚ)⌉).toNat < 2 ^ 32 ∧
      (castUsizeQ ((1 / 2 : ℚ) * ((3 : ℕ) : ℚ)) +
          castUsizeQ ((1 / 2 : ℚ) * ((3 : ℕ) : ℚ)) ≤
        castU32 ⌈(1 : ℚ) * ((3 : ℕ) : ℚ)⌉ ∧
        ∀ (buf src : List ℝ),
          buf.length = castU32 ⌈(1 : ℚ) * ((3 : ℕ) : ℚ)⌉ →
          src.length = castUsizeQ ((1 / 2 : ℚ) * ((3 : ℕ) : ℚ)) →
          ∃ out,
            writeInto buf (castUsizeQ ((1 / 2 : ℚ) * ((3 : ℕ) : ℚ))) src add =
              some out) := by
  have hsat : (⌈(1 : ℚ) * ((3 : ℕ) : ℚ)⌉).toNat < 2 ^ 32 := by
    rw [show (1 : ℚ) * ((3 : ℕ) : ℚ) = ((3 : ℕ) : ℚ) by norm_num,
      Int.ceil_natCast, Int.toNat_natCast]
    norm_num
  exact ⟨by norm_num, by norm_num, hsat,
    C2_placement_in_bounds (1 / 2) (1 / 2) 1 3 (by norm_num) (by norm_num)
      (by norm_num) hsat⟩

/-- C2 counterexample: the note `start = 0`, `duration = 2^33` seconds at
rate `1` has `start ≥ 0` and `duration ≥ 0`, yet its placement is a fatal
slice-bounds violation (the mixing loop panics and the render emits
nothing): the local array has `⌊duration·R⌋ = 2^33` samples while the mix
buffer saturates at `2^32 - 1` entries, and nothing clamps or extends it. -/
theorem C2_counterexample :
    (0 : ℚ) ≤ (Note.mk (440 : ℚ) 1 0 8589934592).start ∧
      (0 : ℚ) ≤ (Note.mk (440 : ℚ) 1 0 8589934592).duration ∧
      (Song.mk [Track.mk [Note.mk 440 1 0 8589934592] .Sine]).sampleData 1 =
        none ∧
      (Song.mk [Track.mk [Note.mk 440 1 0 8589934592] .Sine]).renderFile
        (WriteInfo.mk "test.wav" 1 false .Wave) = none := by
  have hcast : (8589934592 : ℚ) = ((8589934592 : ℕ) : ℚ) := by norm_num
  have hnone := sampleData_single_oversized .Sine 440 1 (8589934592 : ℚ)
    8589934592 hcast (by norm_num) (by norm_num)
  exact ⟨le_rfl, by norm_num, hnone, renderFile_of_sampleData_none hnone⟩

/-- C1 analysis: `File::create(&info.filepath)?` (main.rs:87) propagates a
creation error to the caller, but the `io::Result` of
`file.write(&file_data);` (main.rs:165) is discarded — the call still
returns `Ok(())` when the write of the assembled byte buffer fails. -/
theorem C1_write_error_swallowed :
    (∀ (e : IOError) (wr : Option IOError),
      (Song.mk []).write (WriteInfo.mk "test.wav" 44100 false .Wave) (some e)
        wr = .err e) ∧
      ∃ bytes,
        (Song.mk []).write (WriteInfo.mk "test.wav" 44100 false .Wave) none
          (some .diskFull) = .ok bytes := by
  constructor
  · intro e wr
    rfl
  · refine ⟨(Song.mk []).headerBytes (WriteInfo.mk "test.wav" 44100 false .Wave), ?_⟩
    unfold Song.write
    rw [renderFile_no_notes (Song.mk [])
      (WriteInfo.mk "test.wav" 44100 false .Wave) (by simp)]

/-- Witness for C4: in a stereo frame of the sample `0.5/32767`, the second
channel slot holds the bytes of the quantized value, which is `0`. -/
theorem C4_quantizer_spec_witness :
    (1 : ℕ) < 2 ∧
      ((frameBytes 2 ((1 : ℝ) / 2 / 32767)).drop (2 * 1)).take 2 =
        i16le (quantize ((1 : ℝ) / 2 / 32767)) ∧
      quantize ((1 : ℝ) / 2 / 32767) = 0 :=
  ⟨by norm_num, C4_quantizer_spec.2.1 2 ((1 : ℝ) / 2 / 32767) 1 (by norm_num),
    C4_quantizer_spec.1⟩

end Untz
